import Mathlib

/-!
Formal verification of the core of `tides-ft` (`src/main.rs`), a program that
computes the continuous-time Fourier transform of an irregularly sampled,
piecewise-linear water-level time series.

The embedding translates the Rust source into Lean: `f64` values are modelled
by real numbers `ℝ` (exact field semantics; IEEE-754 rounding, `inf` and `NaN`
are outside the model — where the source would produce `NaN` through a zero
denominator, the embedding exhibits the zero denominator explicitly, since
Lean's total division returns the junk value `0` there), `Complex<f64>` by `ℂ`,
and the unbounded `while` loop of `fourier` by a fuel-indexed partial function
whose value `none` means the loop has not exited within the given fuel.
-/

namespace TidesFT

noncomputable section

/-- A single data point about the water level; `time` is kept in seconds since
the first data point (`struct DataPoint`, main.rs lines 36-41). -/
structure DataPoint where
  time : ℝ
  water_level : ℝ

instance : Inhabited DataPoint := ⟨⟨0, 0⟩⟩

/-- A single point of the Fourier transform of the data; frequency stored in Hz
(`struct FtPoint`, main.rs lines 43-48). -/
structure FtPoint where
  freq : ℝ
  amplitude : ℝ

/-- A raw CSV record (`struct WaterState`, main.rs lines 10-20).  The `date` and
`time` strings are parsed by the external `chrono` collaborator into a UTC
instant; we embed that instant directly as a count of nanoseconds
(`datetimeNanos`), which is the precision of `chrono::DateTime`.  `predicted`
is carried but unused by the core; `verified` is the measured water level. -/
structure WaterState where
  datetimeNanos : ℤ
  predicted : ℝ
  verified : ℝ

instance : Inhabited WaterState := ⟨⟨0, 0, 0⟩⟩

/-- `chrono::Duration::num_seconds`: the number of whole seconds in a duration
given in nanoseconds, with truncation toward zero. -/
def num_seconds (nanos : ℤ) : ℤ :=
  if 0 ≤ nanos then ((nanos.toNat / 1000000000 : ℕ) : ℤ)
  else -(((-nanos).toNat / 1000000000 : ℕ) : ℤ)

/-- `DataSet::get_data` (main.rs lines 55-76), restricted to its pure core: the
CSV reader and the timestamp parser are external collaborators, so the input is
the list of already-parsed records.  The source unwraps the first record
(panicking on an empty file, modelled by `none`), pushes it with `time = 0.0`,
and maps every further record to the whole-second difference from the first
record's timestamp (`as f64`) together with its `verified` value. -/
def get_data (records : List WaterState) : Option (List DataPoint) :=
  match records with
  | [] => none
  | first :: rest =>
    some (⟨0, first.verified⟩ ::
      rest.map (fun r =>
        ⟨((num_seconds (r.datetimeNanos - first.datetimeNanos) : ℤ) : ℝ), r.verified⟩))

/-- `DataSet::period_length` (main.rs lines 79-81): `last.time - first.time`.
The source unwraps `first`/`last` (panicking on an empty vector); the embedding
uses the default `0` there, which no claim exercises with an empty list. -/
def period_length (data : List DataPoint) : ℝ :=
  (data.getLast?.map DataPoint.time).getD 0 - (data.head?.map DataPoint.time).getD 0

/-- The kernel constant `c = 2.0 * PI * neg_i * freq` with `neg_i = -i`
(main.rs lines 87-92). -/
def c_of (freq : ℝ) : ℂ := 2 * Real.pi * (-Complex.I) * freq

/-- The slope `a = (level2 - level1) / (time2 - time1)` of the linear segment
between two data points (main.rs line 111). -/
def slope (p q : DataPoint) : ℝ := (q.water_level - p.water_level) / (q.time - p.time)

/-- The intercept `b = level1 - a * time1` (main.rs line 112). -/
def intercept (p q : DataPoint) : ℝ := p.water_level - slope p q * p.time

/-- The antiderivative closure `int_f` (main.rs line 117):
`(a*x + b - a/c)/c * exp(c*x)`. -/
def int_f (a b : ℝ) (c : ℂ) (x : ℝ) : ℂ :=
  (((a : ℂ)) * (x : ℂ) + (b : ℂ) - (a : ℂ) / c) / c * Complex.exp (c * (x : ℂ))

/-- The contribution of one window of two adjacent data points:
`int_f(time2) - int_f(time1)` (main.rs lines 100-118). -/
def segTerm (freq : ℝ) (p q : DataPoint) : ℂ :=
  int_f (slope p q) (intercept p q) (c_of freq) q.time
    - int_f (slope p q) (intercept p q) (c_of freq) p.time

/-- `slice::par_windows(2)` specialised to data points: the list of adjacent
pairs (main.rs line 99).  Rayon only parallelises the traversal; the summed
value is the same as the sequential one. -/
def par_windows2 : List DataPoint → List (DataPoint × DataPoint)
  | p :: q :: rest => (p, q) :: par_windows2 (q :: rest)
  | _ => []

/-- `DataSet::integrate_freq` (main.rs lines 86-125): sum of the per-window
contributions divided by `period_length`.  The function is total into `ℂ`: the
source has no error channel here. -/
def integrate_freq (data : List DataPoint) (freq : ℝ) : ℂ :=
  ((par_windows2 data).map (fun pq => segTerm freq pq.1 pq.2)).sum
    / ((period_length data : ℝ) : ℂ)

/-- The amplitude reported per frequency: `integrate_freq(..).norm()`
(main.rs line 138); `Complex::norm` is the magnitude. -/
def amplitude (data : List DataPoint) (freq : ℝ) : ℝ :=
  Complex.abs (integrate_freq data freq)

/-- `fourier` (main.rs lines 131-147), a fuel-indexed unfolding of its
`while current_freq <= end_freq` loop.  `fourier data end_freq step fuel current`
is `some result` when the loop starting at `current` exits within `fuel`
iterations, and `none` when the fuel is exhausted first; `∀ fuel, none` is
exactly non-termination of the source loop. -/
def fourier (data : List DataPoint) (end_freq step : ℝ) : ℕ → ℝ → Option (List FtPoint)
  | 0, _ => none
  | fuel + 1, current =>
    if current ≤ end_freq then
      (fourier data end_freq step fuel (current + step)).map
        (fun rest => ⟨current, amplitude data current⟩ :: rest)
    else
      some []

/-- The lines printed by `main` (main.rs lines 174-176): one
`(freq * 86400, amplitude)` pair per Fourier point, in order. -/
def outputLines (points : List FtPoint) : List (ℝ × ℝ) :=
  points.map (fun p => (p.freq * 86400, p.amplitude))

/-- Scaling every `water_level` by a constant `k` (the transformation quantified
over by the scale-invariance property). -/
def scaleData (k : ℝ) (data : List DataPoint) : List DataPoint :=
  data.map (fun p => ⟨p.time, k * p.water_level⟩)

/-! ### Specification-side definitions

These are written from the specification's words, to be compared with the
definitions embedded from the source. -/

/-- Spec-side kernel: `c = −2·π·i·f`. -/
def specC (f : ℝ) : ℂ := -(2 * Real.pi * Complex.I * f)

/-- Spec-side antiderivative: `F(t) = (a·t + b − a/c)/c · exp(c·t)`. -/
def specF (a b : ℝ) (c : ℂ) (t : ℝ) : ℂ :=
  (((a : ℂ)) * (t : ℂ) + (b : ℂ) - (a : ℂ) / c) / c * Complex.exp (c * (t : ℂ))

/-- Spec-side contribution of the adjacent pair `(t1,v1),(t2,v2)`:
`F(t2) − F(t1)` with `a = (v2 − v1)/(t2 − t1)` and `b = v1 − a·t1`. -/
def specSegTerm (f : ℝ) (p q : DataPoint) : ℂ :=
  specF ((q.water_level - p.water_level) / (q.time - p.time))
      (p.water_level - (q.water_level - p.water_level) / (q.time - p.time) * p.time)
      (specC f) q.time
    - specF ((q.water_level - p.water_level) / (q.time - p.time))
      (p.water_level - (q.water_level - p.water_level) / (q.time - p.time) * p.time)
      (specC f) p.time

/-- Spec-side Fourier coefficient: the sum of `F(t2) − F(t1)` over every
adjacent pair, divided by `last.time − first.time`. -/
def specCoeff (data : List DataPoint) (f : ℝ) : ℂ :=
  (∑ i ∈ Finset.range (data.length - 1),
      specSegTerm f (data.getD i default) (data.getD (i + 1) default)) /
    (((data.getLast?.map DataPoint.time).getD 0 - (data.head?.map DataPoint.time).getD 0 : ℝ) : ℂ)

/-- Spec-side time-weighted trapezoid mean: the sum over adjacent pairs of
`(v1+v2)/2 · (t2−t1)`, divided by the total time span. -/
def specTrapezoidMean (data : List DataPoint) : ℝ :=
  (∑ i ∈ Finset.range (data.length - 1),
      ((data.getD i default).water_level + (data.getD (i + 1) default).water_level) / 2
        * ((data.getD (i + 1) default).time - (data.getD i default).time))
    / period_length data

/-! ### Concrete example data used by witnesses and failing-input theorems -/

/-- A valid two-point series: levels `0, 1` at times `0, 1`. -/
def exA : List DataPoint := [⟨0, 0⟩, ⟨1, 1⟩]

/-- A valid two-point series: levels `1, 2` at times `0, 1`; its trapezoid mean
is `3/2`. -/
def exTrap : List DataPoint := [⟨0, 1⟩, ⟨1, 2⟩]

/-- A degenerate series: two samples at identical elapsed time `0`. -/
def exDeg : List DataPoint := [⟨0, 1⟩, ⟨0, 2⟩]

/-- A raw record at nanosecond instant `0` with verified level `1`. -/
def exW0 : WaterState := ⟨0, 0, 1⟩

/-- A raw record `90.5` seconds after `exW0` (sub-second part exercises the
whole-second truncation) with verified level `2`. -/
def exW1 : WaterState := ⟨90500000000, 0, 2⟩


/-! ### Helper lemmas -/

/-- The window sum of the source equals an index-based sum over adjacent pairs. -/
lemma par_windows2_map_sum (g : DataPoint → DataPoint → ℂ) :
    ∀ l : List DataPoint,
      ((par_windows2 l).map (fun pq => g pq.1 pq.2)).sum
        = ∑ i ∈ Finset.range (l.length - 1), g (l.getD i default) (l.getD (i + 1) default) := by
  intro l
  induction l with
  | nil => simp [par_windows2]
  | cons p t ih =>
    cases t with
    | nil => simp [par_windows2]
    | cons q rest =>
      have hlen : (p :: q :: rest).length - 1 = rest.length + 1 := by simp
      rw [hlen, Finset.sum_range_succ']
      have hlen2 : (q :: rest).length - 1 = rest.length := by simp
      calc ((par_windows2 (p :: q :: rest)).map (fun pq => g pq.1 pq.2)).sum
          = g p q + ((par_windows2 (q :: rest)).map (fun pq => g pq.1 pq.2)).sum := by
            simp [par_windows2]
        _ = g p q + ∑ i ∈ Finset.range ((q :: rest).length - 1),
              g ((q :: rest).getD i default) ((q :: rest).getD (i + 1) default) := by
            rw [ih]
        _ = g p q + ∑ i ∈ Finset.range rest.length,
              g ((p :: q :: rest).getD (i + 1) default)
                ((p :: q :: rest).getD (i + 1 + 1) default) := by
            rw [hlen2]
            congr 1
        _ = (∑ i ∈ Finset.range rest.length,
              g ((p :: q :: rest).getD (i + 1) default)
                ((p :: q :: rest).getD (i + 1 + 1) default))
              + g ((p :: q :: rest).getD 0 default) ((p :: q :: rest).getD 1 default) := by
            have h0 : (p :: q :: rest).getD 0 default = p := rfl
            have h1 : (p :: q :: rest).getD 1 default = q := rfl
            rw [h0, h1, add_comm]

/-- The source's kernel constant agrees with the specification's `−2·π·i·f`. -/
lemma specC_eq_c_of (f : ℝ) : specC f = c_of f := by
  unfold specC c_of
  ring

/-- Per-pair agreement of the source's window contribution with the
specification's segment formula. -/
lemma specSegTerm_eq_segTerm (f : ℝ) (p q : DataPoint) :
    specSegTerm f p q = segTerm f p q := by
  unfold specSegTerm segTerm specF int_f intercept slope
  rw [specC_eq_c_of]


/-! ### Claim theorems: the integrator -/

/-- C1: for every TimeSeries with at least 2 points, strictly increasing times,
and every frequency `f ≠ 0`, `integrate_freq` returns the complex coefficient
equal to the sum over every adjacent pair of `F(t2) − F(t1)` with
`F(t) = (a·t + b − a/c)/c · exp(c·t)`, `c = −2·π·i·f`, `a = (v2−v1)/(t2−t1)`,
`b = v1 − a·t1`, divided by `last.time − first.time`; the reported amplitude is
the magnitude of this complex number. -/
theorem integrate_freq_eq_specCoeff (data : List DataPoint) (f : ℝ)
    (h2 : 2 ≤ data.length)
    (hmono : List.Chain' (fun p q => p.time < q.time) data)
    (hf : f ≠ 0) :
    integrate_freq data f = specCoeff data f ∧
      amplitude data f = Complex.abs (specCoeff data f) := by
  have key : integrate_freq data f = specCoeff data f := by
    unfold integrate_freq specCoeff period_length
    rw [par_windows2_map_sum (segTerm f) data]
    congr 1
    exact Finset.sum_congr rfl fun i _ => (specSegTerm_eq_segTerm f _ _).symm
  exact ⟨key, by unfold amplitude; rw [key]⟩

/-- Witness for C1 at the concrete valid series `exA` and frequency `1`. -/
theorem integrate_freq_eq_specCoeff_witness :
    integrate_freq exA 1 = specCoeff exA 1 ∧
      amplitude exA 1 = Complex.abs (specCoeff exA 1) :=
  integrate_freq_eq_specCoeff exA 1 (by norm_num [exA])
    (by norm_num [exA, List.chain'_cons]) (by norm_num)

/-- C2 (code bug exhibited): the source has no `f = 0` special case; its kernel
`c` is `0` there and every window contribution divides by it, so in the exact
embedding `integrate_freq` at frequency `0` collapses to the junk value `0`
(in IEEE-754 `f64` arithmetic, to `NaN`) for every data set, whereas the claim
requires the trapezoid time-weighted mean — `3/2` on the series `exTrap`. -/
theorem integrate_freq_zero_freq :
    (∀ data : List DataPoint, integrate_freq data 0 = 0) ∧
      specTrapezoidMean exTrap = 3 / 2 ∧
      integrate_freq exTrap 0 ≠ ((specTrapezoidMean exTrap : ℝ) : ℂ) := by
  have hc : c_of 0 = 0 := by unfold c_of; simp
  have hzero : ∀ data : List DataPoint, integrate_freq data 0 = 0 := by
    intro data
    unfold integrate_freq
    have hsum : ((par_windows2 data).map (fun pq => segTerm 0 pq.1 pq.2)).sum = 0 := by
      apply List.sum_eq_zero
      intro x hx
      obtain ⟨pq, _, rfl⟩ := List.mem_map.mp hx
      unfold segTerm int_f
      rw [hc]
      simp
    rw [hsum, zero_div]
  have htrap : specTrapezoidMean exTrap = 3 / 2 := by
    unfold specTrapezoidMean period_length
    norm_num [exTrap, Finset.sum_range_succ]
  refine ⟨hzero, htrap, ?_⟩
  rw [hzero exTrap, htrap]
  norm_num

/-- C3 (code bug exhibited): on a series whose two adjacent samples share the
same elapsed time, `integrate_freq` signals no error at any frequency — it is a
total function into `ℂ` (the source return type has no error channel) and its
per-window slope divides by the zero width `t2 − t1 = 0` (in IEEE-754 `f64`
arithmetic this produces `inf`/`NaN`; in the exact embedding the junk value
`0`), so the whole call returns a plain complex value instead of a
`DegenerateSegment` error. -/
theorem integrate_freq_degenerate :
    ((exDeg.getD 1 default).time - (exDeg.getD 0 default).time = 0) ∧
      ∀ f : ℝ, integrate_freq exDeg f = 0 := by
  constructor
  · simp [exDeg]
  · intro f
    unfold integrate_freq
    rw [show par_windows2 exDeg = [(⟨0, 1⟩, ⟨0, 2⟩)] from rfl]
    have hseg : segTerm f ⟨0, 1⟩ ⟨0, 2⟩ = 0 := by
      unfold segTerm
      simp
    simp [hseg, period_length, exDeg]

/-- C8: on a single-point series `integrate_freq` performs no validation: the
window list over adjacent pairs is empty (its sum is `0`), `period_length` is
`0`, and the unguarded final division is literally `0 / 0` (IEEE-754 `NaN`;
junk value `0` in the exact embedding), returned as a plain complex value with
no error signalled. -/
theorem integrate_freq_singleton (p : DataPoint) (f : ℝ) :
    par_windows2 [p] = [] ∧
      period_length [p] = 0 ∧
      integrate_freq [p] f = 0 / ((0 : ℝ) : ℂ) := by
  refine ⟨rfl, by simp [period_length], ?_⟩
  unfold integrate_freq
  rw [show par_windows2 [p] = [] from rfl]
  simp [period_length]


/-! ### Helper lemmas: the sweep loop -/

/-- One loop iteration while `current ≤ end_freq`. -/
lemma fourier_succ_of_le (data : List DataPoint) (e s c : ℝ) (n : ℕ) (h : c ≤ e) :
    fourier data e s (n + 1) c
      = (fourier data e s n (c + s)).map
          (fun rest => ⟨c, amplitude data c⟩ :: rest) := by
  simp only [fourier, if_pos h]

/-- Loop exit as soon as `current > end_freq`. -/
lemma fourier_succ_of_gt (data : List DataPoint) (e s c : ℝ) (n : ℕ) (h : ¬ c ≤ e) :
    fourier data e s (n + 1) c = some [] := by
  simp only [fourier, if_neg h]

/-- With a non-positive step the loop guard stays true forever: no amount of
fuel makes the loop exit. -/
lemma fourier_none_of_nonpos (data : List DataPoint) (e s : ℝ) (hs : s ≤ 0) :
    ∀ (n : ℕ) (c : ℝ), c ≤ e → fourier data e s n c = none := by
  intro n
  induction n with
  | zero => intro c _; rfl
  | succ k ih =>
    intro c h
    rw [fourier_succ_of_le data e s c k h, ih (c + s) (by linarith)]
    rfl

/-- With a positive step, enough fuel makes the loop exit. -/
lemma fourier_halts (data : List DataPoint) (e s : ℝ) (hs : 0 < s) :
    ∀ (n : ℕ) (c : ℝ), e < c + n * s → ∃ l, fourier data e s (n + 1) c = some l := by
  intro n
  induction n with
  | zero =>
    intro c h
    push_cast at h
    exact ⟨[], fourier_succ_of_gt data e s c 0 (not_le.mpr (by linarith))⟩
  | succ k ih =>
    intro c h
    by_cases hc : c ≤ e
    · have h2 : e < (c + s) + k * s := by push_cast at h ⊢; linarith
      obtain ⟨l, hl⟩ := ih (c + s) h2
      exact ⟨_, by rw [fourier_succ_of_le data e s c (k + 1) hc, hl]; rfl⟩
    · exact ⟨[], fourier_succ_of_gt data e s c (k + 1) hc⟩

/-- A run started beyond the end frequency can only produce the empty list. -/
lemma fourier_nil_of_gt (data : List DataPoint) (e s c : ℝ) (h : ¬ c ≤ e) :
    ∀ (n : ℕ) (l : List FtPoint), fourier data e s n c = some l → l = [] := by
  intro n l hl
  cases n with
  | zero => exact Option.noConfusion hl
  | succ k =>
    rw [fourier_succ_of_gt data e s c k h] at hl
    injection hl with h2
    exact h2.symm

/-- Any successful run started at `c ≤ e` visits exactly the frequencies
`c, c+s, …` up to the last one at most `e`. -/
lemma fourier_freqs (data : List DataPoint) (e s : ℝ) (hs : 0 < s) :
    ∀ (n : ℕ) (c : ℝ) (l : List FtPoint), c ≤ e → fourier data e s n c = some l →
      l.map FtPoint.freq
        = (List.range (⌊(e - c) / s⌋₊ + 1)).map (fun (k : ℕ) => c + (k : ℝ) * s) := by
  intro n
  induction n with
  | zero => intro c l _ hl; exact Option.noConfusion hl
  | succ m ih =>
    intro c l hc hl
    rw [fourier_succ_of_le data e s c m hc] at hl
    obtain ⟨rest, hrest, rfl⟩ := Option.map_eq_some'.mp hl
    by_cases h2 : c + s ≤ e
    · have hmap := ih (c + s) rest h2 hrest
      have hfloor : ⌊(e - c) / s⌋₊ = ⌊(e - (c + s)) / s⌋₊ + 1 := by
        have harg : (e - c) / s = (e - (c + s)) / s + 1 := by
          field_simp
          ring
        rw [harg, Nat.floor_add_one (div_nonneg (by linarith) hs.le)]
      rw [hfloor, List.range_succ_eq_map, List.map_cons, List.map_cons, List.map_map]
      congr 1
      · norm_num
      · rw [hmap]
        congr 1
        funext k
        show (c + s) + (k : ℝ) * s = c + ((k + 1 : ℕ) : ℝ) * s
        push_cast
        ring
    · have hrest0 : rest = [] := fourier_nil_of_gt data e s (c + s) h2 m rest hrest
      subst hrest0
      have hfloor0 : ⌊(e - c) / s⌋₊ = 0 := by
        rw [Nat.floor_eq_zero, div_lt_one hs]
        have := not_le.mp h2
        linarith
      rw [hfloor0]
      norm_num [List.range_succ]

/-! ### Claim theorems: the sweep -/

/-- C4 (code bug exhibited): `fourier` performs no range validation and has no
error channel.  With `step = −1 ≤ 0` and `start = 0 ≤ end = 1` the loop never
exits (no fuel suffices), so it neither fails with `InvalidRange` nor returns;
with `start = 1 > end = 0` it returns an empty success value instead of an
`InvalidRange` error. -/
theorem fourier_no_range_validation :
    (∀ n : ℕ, fourier exA 1 (-1) n 0 = none) ∧ fourier exA 0 1 (0 + 1) 1 = some [] := by
  constructor
  · intro n
    exact fourier_none_of_nonpos exA 1 (-1) (by norm_num) n 0 (by norm_num)
  · exact fourier_succ_of_gt exA 0 1 1 0 (by norm_num)

/-- C5: with `step > 0` and `start ≤ end`, a sweep with sufficient fuel
succeeds and produces points at exactly the frequencies
`start, start+step, …, start+k·step` for `k = ⌊(end−start)/step⌋`, in ascending
order (the list is ordered by its index formula since `step > 0`). -/
theorem fourier_sweep_grid (data : List DataPoint) (start e s : ℝ) (n : ℕ)
    (hs : 0 < s) (hse : start ≤ e) (hn : e < start + n * s) :
    (fourier data e s (n + 1) start).map (List.map FtPoint.freq)
      = some ((List.range (⌊(e - start) / s⌋₊ + 1)).map (fun (k : ℕ) => start + (k : ℝ) * s)) := by
  obtain ⟨l, hl⟩ := fourier_halts data e s hs n start hn
  rw [hl, Option.map_some']
  exact congrArg some (fourier_freqs data e s hs (n + 1) start l hse hl)

/-- Witness for C5 at `start = 0`, `end = 1`, `step = 1/4` with fuel `6`. -/
theorem fourier_sweep_grid_witness :
    (fourier exA 1 (1 / 4) (5 + 1) 0).map (List.map FtPoint.freq)
      = some ((List.range (⌊((1 : ℝ) - 0) / (1 / 4)⌋₊ + 1)).map
          (fun (k : ℕ) => 0 + (k : ℝ) * (1 / 4))) :=
  fourier_sweep_grid exA 0 1 (1 / 4) 5 (by norm_num) (by norm_num) (by norm_num)

/-- The concrete instance of the sweep grid: `start = 0`, `end = 1`,
`step = 1/4` yields exactly the five frequencies `0, 1/4, 1/2, 3/4, 1`, in
that order. -/
lemma fourier_grid_points_example :
    (fourier exA 1 (1 / 4) 6 0).map (List.map FtPoint.freq)
      = some [0, 1 / 4, 1 / 2, 3 / 4, 1] := by
  obtain ⟨l, hl⟩ := fourier_halts exA 1 (1 / 4) (by norm_num) 5 0 (by norm_num)
  rw [show (6 : ℕ) = 5 + 1 from rfl, hl, Option.map_some']
  rw [fourier_freqs exA 1 (1 / 4) (by norm_num) (5 + 1) 0 l (by norm_num) hl]
  have h4 : ((1 : ℝ) - 0) / (1 / 4) = ((4 : ℕ) : ℝ) := by norm_num
  rw [h4, Nat.floor_natCast]
  norm_num [List.range_succ]

/-- C9: the sweep loop terminates for every positive step (some fuel suffices),
and with `step ≤ 0` and `start ≤ end` it never terminates — the code performs
no validation of `step`. -/
theorem fourier_termination_dichotomy (data : List DataPoint) (start e s : ℝ) :
    (0 < s → ∃ n : ℕ, (fourier data e s n start).isSome) ∧
      (s ≤ 0 → start ≤ e → ∀ n : ℕ, fourier data e s n start = none) := by
  constructor
  · intro hs
    obtain ⟨N, hN⟩ := exists_nat_gt ((e - start) / s)
    have h : e < start + N * s := by
      rw [div_lt_iff₀ hs] at hN
      linarith
    obtain ⟨l, hl⟩ := fourier_halts data e s hs N start h
    exact ⟨N + 1, by rw [hl]; rfl⟩
  · intro hs hse n
    exact fourier_none_of_nonpos data e s hs n start hse

/-- Witness for C9: a terminating positive-step run and a non-terminating
non-positive-step run on concrete inputs. -/
theorem fourier_termination_dichotomy_witness :
    (∃ n : ℕ, (fourier exA 1 1 n 0).isSome) ∧ fourier exA 1 (-1) 5 0 = none :=
  ⟨(fourier_termination_dichotomy exA 0 1 1).1 (by norm_num),
   (fourier_termination_dichotomy exA 0 1 (-1)).2 (by norm_num) (by norm_num) 5⟩

/-- C10: whenever `start > end`, the loop guard fails at once: for every data
set and step the sweep returns the empty list (a success, not an error) using
any positive fuel, and the program consequently prints no output lines. -/
theorem fourier_inverted_range_empty (data : List DataPoint) (e s start : ℝ) (n : ℕ)
    (h : e < start) :
    fourier data e s (n + 1) start = some [] ∧ outputLines [] = [] :=
  ⟨fourier_succ_of_gt data e s start n (not_le.mpr h), rfl⟩

/-- Witness for C10 at `start = 1 > end = 0`. -/
theorem fourier_inverted_range_empty_witness :
    fourier exA 0 1 (0 + 1) 1 = some [] ∧ outputLines [] = [] :=
  fourier_inverted_range_empty exA 0 1 1 0 (by norm_num)


/-! ### Helper lemmas: scale invariance -/

/-- Windowing commutes with a pointwise transformation of the list. -/
lemma par_windows2_map (h : DataPoint → DataPoint) :
    ∀ l : List DataPoint,
      par_windows2 (l.map h) = (par_windows2 l).map (fun pq => (h pq.1, h pq.2)) := by
  intro l
  induction l with
  | nil => rfl
  | cons p t ih =>
    cases t with
    | nil => rfl
    | cons q rest =>
      have ih' : par_windows2 (h q :: List.map h rest)
          = (par_windows2 (q :: rest)).map (fun pq => (h pq.1, h pq.2)) := by
        simpa using ih
      simp only [List.map_cons, par_windows2, ih']

/-- Each window contribution is linear in the water levels. -/
lemma segTerm_scale (k f : ℝ) (p q : DataPoint) :
    segTerm f ⟨p.time, k * p.water_level⟩ ⟨q.time, k * q.water_level⟩
      = (k : ℂ) * segTerm f p q := by
  unfold segTerm int_f intercept slope
  push_cast
  ring

/-- Scaling water levels leaves the covered period unchanged. -/
lemma period_length_scale (k : ℝ) (data : List DataPoint) :
    period_length (scaleData k data) = period_length data := by
  have hco : (DataPoint.time ∘ fun p : DataPoint => (⟨p.time, k * p.water_level⟩ : DataPoint))
      = DataPoint.time := by
    funext p
    rfl
  simp [period_length, scaleData, Option.map_map, hco]

/-- The integrator is homogeneous in the water levels. -/
lemma integrate_freq_scale (k f : ℝ) (data : List DataPoint) :
    integrate_freq (scaleData k data) f = (k : ℂ) * integrate_freq data f := by
  unfold integrate_freq
  rw [period_length_scale]
  rw [show scaleData k data = data.map (fun p => ⟨p.time, k * p.water_level⟩) from rfl]
  rw [par_windows2_map (fun p => ⟨p.time, k * p.water_level⟩) data, List.map_map]
  have hfun : ((fun pq : DataPoint × DataPoint => segTerm f pq.1 pq.2)
        ∘ fun pq : DataPoint × DataPoint =>
            ((⟨pq.1.time, k * pq.1.water_level⟩ : DataPoint),
             (⟨pq.2.time, k * pq.2.water_level⟩ : DataPoint)))
      = fun pq : DataPoint × DataPoint => (k : ℂ) * segTerm f pq.1 pq.2 := by
    funext pq
    exact segTerm_scale k f pq.1 pq.2
  rw [hfun, List.sum_map_mul_left, mul_div_assoc]

/-- C7: multiplying every `water_level` by a real constant `k` multiplies the
amplitude (the norm of the complex coefficient) by `|k|`, for every data set
and every frequency. -/
theorem amplitude_scale_invariance (data : List DataPoint) (f k : ℝ) :
    amplitude (scaleData k data) f = |k| * amplitude data f := by
  unfold amplitude
  rw [integrate_freq_scale, map_mul Complex.abs, Complex.abs_ofReal]

/-! ### Helper lemmas: time-series construction -/

/-- `getD` through `map` at an in-range index. -/
lemma map_getD_of_lt (f : WaterState → DataPoint) :
    ∀ (l : List WaterState) (i : ℕ), i < l.length →
      (l.map f).getD i default = f (l.getD i default) := by
  intro l
  induction l with
  | nil => intro i hi; exact absurd hi (by simp)
  | cons a t ih =>
    intro i hi
    cases i with
    | zero => rfl
    | succ j =>
      simp only [List.map_cons, List.getD_cons_succ]
      exact ih j (by simpa using hi)

/-- In a chain of non-decreasing timestamps, the head is at most every later
element. -/
lemma first_le_of_chain :
    ∀ (first : WaterState) (rest : List WaterState),
      List.Chain' (fun a b => a.datetimeNanos ≤ b.datetimeNanos) (first :: rest) →
      ∀ i : ℕ, i < rest.length →
        first.datetimeNanos ≤ (rest.getD i default).datetimeNanos := by
  intro first rest
  induction rest generalizing first with
  | nil => intro _ i hi; exact absurd hi (by simp)
  | cons b t ih =>
    intro hch i hi
    rw [List.chain'_cons] at hch
    cases i with
    | zero => exact hch.1
    | succ j =>
      simp only [List.getD_cons_succ]
      exact le_trans hch.1 (ih b hch.2 j (by simpa using hi))

/-- Truncation toward zero agrees with the real floor on non-negative
nanosecond differences. -/
lemma num_seconds_eq_floor {d : ℤ} (hd : 0 ≤ d) :
    num_seconds d = ⌊(d : ℝ) / 1000000000⌋ := by
  unfold num_seconds
  rw [if_pos hd]
  set a : ℕ := d.toNat with ha
  have hda : (d : ℝ) = (a : ℝ) := by
    rw [ha]
    exact_mod_cast (Int.toNat_of_nonneg hd).symm
  rw [hda]
  have hdiv1 : (a / 1000000000) * 1000000000 ≤ a := Nat.div_mul_le_self a 1000000000
  have hmod : a % 1000000000 < 1000000000 := Nat.mod_lt a (by norm_num)
  have hdm : 1000000000 * (a / 1000000000) + a % 1000000000 = a := Nat.div_add_mod a 1000000000
  symm
  rw [Int.floor_eq_iff]
  constructor
  · rw [le_div_iff₀ (by norm_num : (0 : ℝ) < 1000000000)]
    push_cast
    exact_mod_cast (by exact_mod_cast hdiv1 : ((a / 1000000000) * 1000000000 : ℕ) ≤ (a : ℕ))
  · rw [div_lt_iff₀ (by norm_num : (0 : ℝ) < 1000000000)]
    push_cast
    have : a < (a / 1000000000 + 1) * 1000000000 := by omega
    exact_mod_cast this

/-- C6: for every non-empty sequence of samples with non-decreasing timestamps,
`get_data` succeeds, keeps the length, gives the first point `time = 0` with
the first verified value, and gives every later point the whole number of
seconds elapsed since the first sample (the floor of the nanosecond difference
over 10⁹, i.e. sub-second precision truncated) together with that sample's
verified value. -/
theorem get_data_construction (first : WaterState) (rest : List WaterState) (i : ℕ)
    (hi : i < rest.length)
    (hord : List.Chain' (fun a b => a.datetimeNanos ≤ b.datetimeNanos) (first :: rest)) :
    (get_data (first :: rest)).isSome ∧
      ((get_data (first :: rest)).getD []).length = rest.length + 1 ∧
      ((get_data (first :: rest)).getD []).getD 0 default = ⟨0, first.verified⟩ ∧
      ((get_data (first :: rest)).getD []).getD (i + 1) default
        = ⟨((⌊(((rest.getD i default).datetimeNanos - first.datetimeNanos : ℤ) : ℝ)
              / 1000000000⌋ : ℤ) : ℝ),
           (rest.getD i default).verified⟩ := by
  refine ⟨rfl, by simp [get_data], rfl, ?_⟩
  have hle := first_le_of_chain first rest hord i hi
  show ((⟨0, first.verified⟩ : DataPoint) ::
      rest.map (fun r =>
        ⟨((num_seconds (r.datetimeNanos - first.datetimeNanos) : ℤ) : ℝ), r.verified⟩)).getD
        (i + 1) default = _
  rw [List.getD_cons_succ]
  rw [map_getD_of_lt _ rest i hi]
  have hnum := num_seconds_eq_floor (d := (rest.getD i default).datetimeNanos
    - first.datetimeNanos) (by omega)
  rw [hnum]

/-- Witness for C6: two records `90.5` seconds apart; the second data point
gets time `⌊90.5⌋ = 90` seconds and the second verified value. -/
theorem get_data_construction_witness :
    (get_data (exW0 :: [exW1])).isSome ∧
      ((get_data (exW0 :: [exW1])).getD []).length = [exW1].length + 1 ∧
      ((get_data (exW0 :: [exW1])).getD []).getD 0 default = ⟨0, exW0.verified⟩ ∧
      ((get_data (exW0 :: [exW1])).getD []).getD (0 + 1) default
        = ⟨((⌊((([exW1].getD 0 default).datetimeNanos - exW0.datetimeNanos : ℤ) : ℝ)
              / 1000000000⌋ : ℤ) : ℝ),
           ([exW1].getD 0 default).verified⟩ :=
  get_data_construction exW0 [exW1] 0 (by norm_num)
    (by simp [List.chain'_cons, exW0, exW1])

end

end TidesFT
